import Mathlib

/-!
Shallow embedding of the crawler library (a Go testing harness that drives a
TUI program inside tmux) and proofs about its wait/poll engine, matcher
protocol, screen construction and snapshot normalization.

Go strings are embedded as `List Char`, Go `int` and `time.Duration` as `Int`
(durations in nanoseconds).  Calls into the external tmux process are embedded
as an oracle trace of `EnvStep` values, one per loop iteration; the polling
loops are fueled recursions over that trace.  Functions that call `t.Fatalf`
return a dedicated terminal result instead; functions that may panic in Go
return `Option`.
-/

namespace Crawler

/-- The newline character tmux capture output is split on. -/
def nl : Char := '\n'

/-- Embeds `strings.ReplaceAll(raw, "\r\n", "\n")` from `newScreen`
(screen.go): left-to-right replacement of every CRLF pair by LF. -/
def normCrlf : List Char → List Char
  | '\r' :: '\n' :: rest => '\n' :: normCrlf rest
  | c :: rest => c :: normCrlf rest
  | [] => []

/-- Embeds `strings.TrimSuffix(raw, "\n")` from `newScreen` (screen.go):
removes exactly one trailing newline when present. -/
def trimOneTrailingNewline (s : List Char) : List Char :=
  if s.getLast? = some nl then s.dropLast else s

/-- Embeds `strings.Split(raw, "\n")`: splitting on newline.  Like Go's
`strings.Split`, the result always has at least one element
(`splitNl [] = [[]]`). -/
def splitNl : List Char → List (List Char)
  | [] => [[]]
  | c :: cs =>
    match splitNl cs with
    | [] => [[]]
    | r :: rs => if c = nl then [] :: r :: rs else (c :: r) :: rs

/-- Embeds `strings.Join(lines, "\n")`: joining lines with a single newline. -/
def joinNl : List (List Char) → List Char
  | [] => []
  | [l] => l
  | l :: ls => l ++ nl :: joinNl ls

/-- Embeds `strings.TrimRight(l, " ")`: removes trailing space characters. -/
def trimTrailingSpaces (l : List Char) : List Char :=
  (l.reverse.dropWhile (fun c => c == ' ')).reverse

/-- Embeds the trailing-blank-line removal loop of `normalizeForSnapshot`
(snapshot.go): `for len(lines) > 0 && lines[len(lines)-1] == "" { drop last }`. -/
def dropTrailingBlanks (ls : List (List Char)) : List (List Char) :=
  (ls.reverse.dropWhile (fun l => l.isEmpty)).reverse

/-- Embeds `normalizeForSnapshot` (snapshot.go): split into lines, trim
trailing spaces on each line, remove trailing blank lines, end with exactly
one newline. -/
def normalizeForSnapshot (raw : List Char) : List Char :=
  joinNl (dropTrailingBlanks ((splitNl raw).map trimTrailingSpaces)) ++ [nl]

/-- Embeds the `Screen` struct (screen.go): an immutable capture of terminal
content.  An unknown cursor is the sentinel `(-1, -1)`, exactly as in the
source. -/
structure Screen where
  lines : List (List Char)
  raw : List Char
  width : Int
  height : Int
  cursorRow : Int
  cursorCol : Int
deriving DecidableEq

/-- Embeds `newScreen` (screen.go): normalize line endings, remove a single
trailing newline, split into lines; cursor fields start at the unknown
sentinel `-1`. -/
def newScreen (raw : List Char) (width height : Int) : Screen :=
  let r2 := trimOneTrailingNewline (normCrlf raw)
  { lines := splitNl r2
    raw := r2
    width := width
    height := height
    cursorRow := -1
    cursorCol := -1 }

/-- Embeds the method `(*Screen).Line` (screen.go), which panics on an
out-of-range index; the panic is embedded as `none`. -/
def Screen.Line (s : Screen) (n : Int) : Option (List Char) :=
  if n < 0 then none else s.lines.get? n.toNat

/-- Embeds `(*Screen).Contains` (screen.go): substring containment in the
raw capture. -/
def Screen.Contains (s : Screen) (substr : List Char) : Bool :=
  decide (substr <:+: s.raw)

/-- Embeds the `Matcher` type (match.go): a predicate over a Screen that also
returns a human-readable description. -/
def Matcher : Type := Screen → Bool × String

/-- Go-style quoting used by the matcher descriptions (`%q`), without escape
handling, which the claims do not depend on. -/
def quoteChars (s : List Char) : String :=
  "\"" ++ String.mk s ++ "\""

/-- Embeds the `Text` matcher (match.go). -/
def Text (t : List Char) : Matcher := fun scr =>
  (scr.Contains t, "screen to contain " ++ quoteChars t)

/-- Embeds the `Line` matcher (match.go): out-of-range indices yield `false`
with the same description, in-range lines are compared after trimming
trailing spaces. -/
def Line (n : Int) (text : List Char) : Matcher := fun scr =>
  let desc := "line " ++ toString n ++ " to equal " ++ quoteChars text
  if n < 0 ∨ (scr.lines.length : Int) ≤ n then (false, desc)
  else (trimTrailingSpaces (scr.lines.getD n.toNat []) == text, desc)

/-- Embeds the `LineContains` matcher (match.go). -/
def LineContains (n : Int) (substr : List Char) : Matcher := fun scr =>
  let desc := "line " ++ toString n ++ " to contain " ++ quoteChars substr
  if n < 0 ∨ (scr.lines.length : Int) ≤ n then (false, desc)
  else (decide (substr <:+: scr.lines.getD n.toNat []), desc)

/-- Embeds the `Not` combinator (match.go). -/
def Not (m : Matcher) : Matcher := fun scr =>
  let r := m scr
  (!r.1, "NOT(" ++ r.2 ++ ")")

/-- Helper loop of the `All` combinator: evaluates matchers in order,
accumulating descriptions (newest first in `acc`), short-circuiting on the
first failure. -/
def evalAll (scr : Screen) : List Matcher → List String → Bool × String
  | [], acc => (true, "all of: " ++ String.intercalate ", " acc.reverse)
  | m :: ms, acc =>
    let r := m scr
    if r.1 then evalAll scr ms (r.2 :: acc)
    else (false, "all of: " ++ String.intercalate ", " (r.2 :: acc).reverse)

/-- Embeds the `All` combinator (match.go). -/
def All (ms : List Matcher) : Matcher := fun scr => evalAll scr ms []

/-- Helper loop of the `Any` combinator: short-circuits on the first match. -/
def evalAny (scr : Screen) : List Matcher → List String → Bool × String
  | [], acc => (false, "any of: " ++ String.intercalate ", " acc.reverse)
  | m :: ms, acc =>
    let r := m scr
    if r.1 then (true, "any of: " ++ String.intercalate ", " (r.2 :: acc).reverse)
    else evalAny scr ms (r.2 :: acc)

/-- Embeds the `Any` combinator (match.go). -/
def Any (ms : List Matcher) : Matcher := fun scr => evalAny scr ms []

/-- Embeds the `Cursor` matcher (match.go): compares the screen's cursor
fields (sentinel `-1` included) against the target; on mismatch the
description appends the actual raw coordinates. -/
def Cursor (row col : Int) : Matcher := fun scr =>
  let desc := "cursor at row=" ++ toString row ++ ", col=" ++ toString col
  if scr.cursorRow = row ∧ scr.cursorCol = col then (true, desc)
  else
    (false, desc ++ " (actual: row=" ++ toString scr.cursorRow ++
      ", col=" ++ toString scr.cursorCol ++ ")")

/-- Embeds the `paneState` struct (tmux.go): dead flag and exit status as
reported by `tmux list-panes`. -/
structure PaneState where
  dead : Bool
  exitStatus : Int
deriving DecidableEq

/-- One iteration's worth of external tmux behavior, the oracle for the
polling loops.  `paneState = none` embeds `getPaneState` returning an error;
`capture = none` embeds `capturePaneContent` failing; `cursor = none` embeds
`getCursorPosition` failing; `afterDeadline` is the value of
`time.Now().After(deadline)` at this iteration's deadline check. -/
structure EnvStep where
  paneState : Option PaneState
  capture : Option (List Char)
  cursor : Option (Int × Int)
  afterDeadline : Bool
deriving DecidableEq

/-- Embeds the constant `failureCaptureHistory = 3` (crawler.go). -/
def failureCaptureHistory : Nat := 3

/-- Embeds `appendRecentScreens` (crawler.go): a nil screen is skipped;
otherwise append and, when over capacity, keep only the newest `max`
entries. -/
def appendRecentScreens (screens : List Screen) (scr : Option Screen) (max : Nat) :
    List Screen :=
  match scr with
  | none => screens
  | some s =>
    if max < (screens ++ [s]).length then
      (screens ++ [s]).drop ((screens ++ [s]).length - max)
    else screens ++ [s]

/-- Embeds the cursor-population step shared by `captureScreen`,
`captureScreenRaw` and `waitForInternal` (crawler.go): a successful cursor
query overwrites the sentinel fields, a failed one leaves them unknown. -/
def screenWithCursor (raw : List Char) (cursor : Option (Int × Int))
    (w h : Int) : Screen :=
  match cursor with
  | some rc => { newScreen raw w h with cursorRow := rc.1, cursorCol := rc.2 }
  | none => newScreen raw w h

/-- Embeds `captureScreenRaw` (crawler.go): best-effort capture that returns
nil (here `none`) when `capturePaneContent` fails, and fills the cursor on a
best-effort basis. -/
def captureScreenRaw (e : EnvStep) (w h : Int) : Option Screen :=
  match e.capture with
  | none => none
  | some raw => some (screenWithCursor raw e.cursor w h)

/-- Embeds the guard `err == nil && state.dead` of `waitForInternal`
(crawler.go): the exit status when the liveness query succeeded and reported
the pane dead, `none` otherwise (alive, or query error). -/
def deadState : Option PaneState → Option Int
  | some st => if st.dead then some st.exitStatus else none
  | none => none

/-- Terminal results of `waitForInternal` (crawler.go).  The `t.Fatalf` calls
are embedded as dedicated constructors; `noMoreSteps` marks exhaustion of the
oracle trace (the loop would keep polling). -/
inductive WaitResult where
  | invalidTimeout
  | invalidPollInterval
  | processDied (status : Int) (desc : String) (hist : List Screen)
  | captureFailed
  | timedOut (desc : String) (hist : List Screen)
  | success (scr : Screen)
  | noMoreSteps (desc : String) (hist : List Screen)
deriving DecidableEq

/-- Outcome of the live-pane portion of one `waitForInternal` iteration:
either a terminal result or the next iteration's history and description. -/
inductive AliveStep where
  | stop (r : WaitResult)
  | next (hist : List Screen) (desc : String)
deriving DecidableEq

/-- Embeds lines 1785-1810 of the `waitForInternal` loop body (crawler.go):
capture (failure fatal), best-effort cursor, append to history, evaluate the
matcher, return on match, time out only after the evaluation, else continue. -/
def waitForBody (m : Matcher) (w h : Int) (hist : List Screen) (e : EnvStep) :
    AliveStep :=
  match e.capture with
  | none => .stop .captureFailed
  | some raw =>
    let scr := screenWithCursor raw e.cursor w h
    let hist2 := appendRecentScreens hist (some scr) failureCaptureHistory
    let r := m scr
    if r.1 then .stop (.success scr)
    else if e.afterDeadline then .stop (.timedOut r.2 hist2)
    else .next hist2 r.2

/-- Embeds the `for` loop of `waitForInternal` (crawler.go), one `EnvStep`
per iteration.  The death branch runs only when the liveness query succeeded
and reported dead (`deadState`); a liveness-query error falls through to the
live-pane body, exactly as `if err == nil && state.dead` does. -/
def waitForLoop (m : Matcher) (w h : Int) (hist : List Screen)
    (lastDesc : String) : List EnvStep → WaitResult
  | [] => .noMoreSteps lastDesc hist
  | e :: rest =>
    match deadState e.paneState with
    | some status =>
      let lastScreen := captureScreenRaw e w h
      let hist2 := appendRecentScreens hist lastScreen failureCaptureHistory
      let desc2 :=
        match lastScreen with
        | some scr => (m scr).2
        | none => lastDesc
      .processDied status desc2 hist2
    | none =>
      match waitForBody m w h hist e with
      | .stop r => r
      | .next hist2 desc2 => waitForLoop m w h hist2 desc2 rest

/-- Embeds the constant `minPollInterval = 10 * time.Millisecond`
(options.go), in nanoseconds. -/
def minPollInterval : Int := 10000000

/-- Embeds `defaultTimeout = 5 * time.Second` (options.go), in nanoseconds. -/
def defaultTimeout : Int := 5000000000

/-- Embeds `defaultPollInterval = 50 * time.Millisecond` (options.go), in
nanoseconds. -/
def defaultPollInterval : Int := 50000000

/-- Embeds the timeout resolution of `waitForInternal` and `WaitExit`
(crawler.go): a positive per-call override wins, zero selects the session
default, negative is a fatal configuration error (`none`). -/
def resolveOverride (dflt ov : Int) : Option Int :=
  if 0 < ov then some ov
  else if ov < 0 then none
  else some dflt

/-- Embeds the poll-interval resolution of `waitForInternal` and `WaitExit`
(crawler.go): like `resolveOverride`, but a positive override below
`minPollInterval` is clamped up to it. -/
def resolvePoll (dflt ov : Int) : Option Int :=
  if 0 < ov then some (if ov < minPollInterval then minPollInterval else ov)
  else if ov < 0 then none
  else some dflt

/-- Embeds `waitForInternal` (crawler.go): resolve the per-call timeout, then
the per-call poll interval (each negative override fatal, in that order),
then run the polling loop with empty history and the initial description
"matcher condition".  The resolved timeout and interval feed the deadline and
the sleep, which the oracle's `afterDeadline` flags embed. -/
def waitForInternal (defT defP woT woP : Int) (m : Matcher) (w h : Int)
    (trace : List EnvStep) : WaitResult :=
  match resolveOverride defT woT with
  | none => .invalidTimeout
  | some _ =>
    match resolvePoll defP woP with
    | none => .invalidPollInterval
    | some _ => waitForLoop m w h [] "matcher condition" trace

/-- Terminal results of `WaitExit` (crawler.go).  Unlike `waitForInternal`,
its loop treats a liveness-query error as an immediate fatal failure
(`livenessFailed`). -/
inductive ExitResult where
  | livenessFailed
  | exited (status : Int)
  | timedOut (hist : List Screen)
  | noMoreSteps (hist : List Screen)
deriving DecidableEq

/-- Embeds the `for` loop of `WaitExit` (crawler.go): a liveness-query error
is fatal, death is success (the exit status), otherwise a best-effort capture
is appended to history and the deadline is checked. -/
def waitExitLoop (w h : Int) (hist : List Screen) : List EnvStep → ExitResult
  | [] => .noMoreSteps hist
  | e :: rest =>
    match e.paneState with
    | none => .livenessFailed
    | some st =>
      if st.dead then .exited st.exitStatus
      else
        let hist2 := appendRecentScreens hist (captureScreenRaw e w h)
          failureCaptureHistory
        if e.afterDeadline then .timedOut hist2
        else waitExitLoop w h hist2 rest

/-- The capture history carried by a failure (or trace-exhaustion) result of
the wait loop, `none` for the other results. -/
def histOf : WaitResult → Option (List Screen)
  | .processDied _ _ hist => some hist
  | .timedOut _ hist => some hist
  | .noMoreSteps _ hist => some hist
  | _ => none

/-- A matcher that always matches, used to exercise the death path's
discarded boolean. -/
def mAlwaysTrue : Matcher := fun _ => (true, "always")

/-- A matcher that never matches. -/
def mNever : Matcher := fun _ => (false, "never")

/-- The `Text` matcher for the substring "ok". -/
def mTextOk : Matcher := Text ['o', 'k']

/-- A screen captured while the cursor query failed: both cursor fields hold
the unknown sentinel `-1`. -/
def c3Screen : Screen := newScreen ['h', 'i'] 80 24

/-- An iteration in which the pane is dead with exit status 7 and the final
best-effort capture succeeds. -/
def c1Step : EnvStep :=
  { paneState := some { dead := true, exitStatus := 7 }
    capture := some ['h', 'i']
    cursor := none
    afterDeadline := false }

/-- An iteration in which the liveness query itself errors but the capture
succeeds with content "no". -/
def c2Step1 : EnvStep :=
  { paneState := none
    capture := some ['n', 'o']
    cursor := none
    afterDeadline := false }

/-- An iteration in which the pane is alive and the capture reads "ok". -/
def c2Step2 : EnvStep :=
  { paneState := some { dead := false, exitStatus := 0 }
    capture := some ['o', 'k']
    cursor := none
    afterDeadline := true }

/-- An alive iteration whose deadline has already passed. -/
def c4StepTimeout : EnvStep :=
  { paneState := some { dead := false, exitStatus := 0 }
    capture := some ['x']
    cursor := none
    afterDeadline := true }

/-- An alive iteration past the deadline whose capture and cursor query both
succeed. -/
def c4StepMatch : EnvStep :=
  { paneState := some { dead := false, exitStatus := 0 }
    capture := some ['x']
    cursor := some (2, 3)
    afterDeadline := true }

/-! ### Helper lemmas about splitting, joining and trimming -/

theorem splitNl_ne_nil (s : List Char) : splitNl s ≠ [] := by
  induction s with
  | nil => simp [splitNl]
  | cons c cs ih =>
    cases h : splitNl cs with
    | nil => exact absurd h ih
    | cons r rs =>
      simp only [splitNl, h]
      split <;> simp

theorem joinNl_splitNl (s : List Char) : joinNl (splitNl s) = s := by
  induction s with
  | nil => rfl
  | cons c cs ih =>
    cases h : splitNl cs with
    | nil => exact absurd h (splitNl_ne_nil cs)
    | cons r rs =>
      rw [h] at ih
      simp only [splitNl, h]
      by_cases hc : c = nl
      · rw [if_pos hc, hc]
        show nl :: joinNl (r :: rs) = nl :: cs
        rw [ih]
      · rw [if_neg hc]
        cases rs with
        | nil =>
          show c :: r = c :: cs
          simpa [joinNl] using ih
        | cons r2 rs2 =>
          show (c :: r) ++ nl :: joinNl (r2 :: rs2) = c :: cs
          rw [List.cons_append]
          have hjoin : r ++ nl :: joinNl (r2 :: rs2) = joinNl (r :: r2 :: rs2) := rfl
          rw [hjoin, ih]

theorem mem_splitNl_not_nl (s : List Char) : ∀ l ∈ splitNl s, nl ∉ l := by
  induction s with
  | nil =>
    intro l hl
    simp [splitNl] at hl
    simp [hl]
  | cons c cs ih =>
    intro l hl
    cases h : splitNl cs with
    | nil => exact absurd h (splitNl_ne_nil cs)
    | cons r rs =>
      rw [h] at ih
      simp only [splitNl, h] at hl
      by_cases hc : c = nl
      · rw [if_pos hc] at hl
        rcases List.mem_cons.mp hl with rfl | hl2
        · simp
        · exact ih l hl2
      · rw [if_neg hc] at hl
        rcases List.mem_cons.mp hl with rfl | hl2
        · intro hmem
          rcases List.mem_cons.mp hmem with heq | hmem2
          · exact hc heq.symm
          · exact ih r (List.mem_cons_self r rs) hmem2
        · exact ih l (List.mem_cons_of_mem r hl2)

theorem splitNl_append_nl (l s : List Char) (h : nl ∉ l) :
    splitNl (l ++ nl :: s) = l :: splitNl s := by
  induction l with
  | nil =>
    cases hs : splitNl s with
    | nil => exact absurd hs (splitNl_ne_nil s)
    | cons r rs => simp [splitNl, hs]
  | cons c l2 ih =>
    have hnotc : nl ≠ c ∧ nl ∉ l2 := by
      constructor
      · intro hc; exact h (hc ▸ List.mem_cons_self c l2)
      · intro hmem; exact h (List.mem_cons_of_mem c hmem)
    rw [List.cons_append]
    simp only [splitNl, ih hnotc.2]
    rw [if_neg (fun hc => hnotc.1 hc.symm)]

theorem splitNl_joinNl_concat (ls : List (List Char)) (hne : ls ≠ [])
    (h : ∀ l ∈ ls, nl ∉ l) :
    splitNl (joinNl ls ++ [nl]) = ls ++ [[]] := by
  induction ls with
  | nil => exact absurd rfl hne
  | cons l ls2 ih =>
    cases ls2 with
    | nil =>
      show splitNl (l ++ nl :: []) = [l, []]
      rw [splitNl_append_nl l [] (h l (List.mem_cons_self l []))]
      rfl
    | cons l2 ls3 =>
      show splitNl ((l ++ nl :: joinNl (l2 :: ls3)) ++ [nl]) = l :: (l2 :: ls3) ++ [[]]
      rw [List.append_assoc, List.cons_append]
      rw [splitNl_append_nl l _ (h l (List.mem_cons_self l _))]
      rw [ih (by simp) (fun x hx => h x (List.mem_cons_of_mem l hx))]
      rfl

theorem dropWhile_self {α : Type} (p : α → Bool) (l : List α) :
    (l.dropWhile p).dropWhile p = l.dropWhile p := by
  induction l with
  | nil => rfl
  | cons a l2 ih =>
    by_cases hp : p a = true
    · simp [List.dropWhile_cons, hp, ih]
    · simp [List.dropWhile_cons, hp]

theorem mem_of_mem_dropWhile {α : Type} (p : α → Bool) (a : α) (l : List α)
    (h : a ∈ l.dropWhile p) : a ∈ l := by
  induction l with
  | nil => exact h
  | cons b l2 ih =>
    rw [List.dropWhile_cons] at h
    by_cases hb : p b = true
    · rw [if_pos hb] at h
      exact List.mem_cons_of_mem _ (ih h)
    · rw [if_neg hb] at h
      exact h

theorem trimTrailingSpaces_idem (l : List Char) :
    trimTrailingSpaces (trimTrailingSpaces l) = trimTrailingSpaces l := by
  unfold trimTrailingSpaces
  rw [List.reverse_reverse, dropWhile_self]

theorem mem_trimTrailingSpaces (c : Char) (l : List Char)
    (h : c ∈ trimTrailingSpaces l) : c ∈ l := by
  unfold trimTrailingSpaces at h
  rw [List.mem_reverse] at h
  exact List.mem_reverse.mp (mem_of_mem_dropWhile _ _ _ h)

theorem dropTrailingBlanks_concat_blank (ls : List (List Char)) :
    dropTrailingBlanks (ls ++ [[]]) = dropTrailingBlanks ls := by
  unfold dropTrailingBlanks
  rw [List.reverse_append]
  simp [List.dropWhile_cons]

theorem dropTrailingBlanks_idem (ls : List (List Char)) :
    dropTrailingBlanks (dropTrailingBlanks ls) = dropTrailingBlanks ls := by
  unfold dropTrailingBlanks
  rw [List.reverse_reverse, dropWhile_self]

theorem mem_dropTrailingBlanks (l : List Char) (ls : List (List Char))
    (h : l ∈ dropTrailingBlanks ls) : l ∈ ls := by
  unfold dropTrailingBlanks at h
  rw [List.mem_reverse] at h
  exact List.mem_reverse.mp (mem_of_mem_dropWhile _ _ _ h)

theorem map_self {α : Type} (f : α → α) (l : List α) (h : ∀ a ∈ l, f a = a) :
    l.map f = l := by
  induction l with
  | nil => rfl
  | cons a l2 ih =>
    rw [List.map_cons, h a (List.mem_cons_self a l2),
      ih (fun x hx => h x (List.mem_cons_of_mem a hx))]

/-! ### Helper lemmas about the bounded capture history -/

theorem drop_append_of_le {α : Type} (l1 l2 : List α) (n : Nat)
    (h : n ≤ l1.length) : (l1 ++ l2).drop n = l1.drop n ++ l2 := by
  induction l1 generalizing n with
  | nil =>
    have : n = 0 := Nat.le_zero.mp h
    simp [this]
  | cons a l ih =>
    cases n with
    | zero => simp
    | succ k =>
      rw [List.cons_append, List.drop_succ_cons, List.drop_succ_cons]
      exact ih k (Nat.le_of_succ_le_succ h)

theorem appendRecentScreens_some_eq_drop (hist : List Screen) (scr : Screen)
    (max : Nat) :
    appendRecentScreens hist (some scr) max =
      (hist ++ [scr]).drop (hist.length + 1 - max) := by
  show (if max < (hist ++ [scr]).length then
      (hist ++ [scr]).drop ((hist ++ [scr]).length - max)
    else hist ++ [scr]) = (hist ++ [scr]).drop (hist.length + 1 - max)
  simp only [List.length_append, List.length_cons, List.length_nil]
  split
  · rfl
  · rename_i hle
    rw [Nat.sub_eq_zero_of_le (by omega), List.drop_zero]

theorem appendRecentScreens_length_le (hist : List Screen) (scr : Option Screen)
    (max : Nat) (h : hist.length ≤ max) :
    (appendRecentScreens hist scr max).length ≤ max := by
  cases scr with
  | none => exact h
  | some s =>
    show (if max < (hist ++ [s]).length then
        (hist ++ [s]).drop ((hist ++ [s]).length - max)
      else hist ++ [s]).length ≤ max
    split
    · rename_i hgt
      rw [List.length_drop]
      simp only [List.length_append, List.length_cons, List.length_nil] at hgt ⊢
      omega
    · rename_i hle
      simp only [List.length_append, List.length_cons, List.length_nil] at hle ⊢
      omega

theorem appendRecentScreens_some_getLast (hist : List Screen) (scr : Screen)
    (max : Nat) (hmax : 0 < max) :
    (appendRecentScreens hist (some scr) max).getLast? = some scr := by
  rw [appendRecentScreens_some_eq_drop]
  rw [drop_append_of_le hist [scr] _ (by omega)]
  exact List.getLast?_concat _

/-! ### Helper lemmas about the wait loop -/

theorem waitForBody_cases (m : Matcher) (w h : Int) (hist : List Screen)
    (e : EnvStep) :
    (e.capture = none ∧ waitForBody m w h hist e = .stop .captureFailed) ∨
    (∃ raw, e.capture = some raw ∧
      (m (screenWithCursor raw e.cursor w h)).1 = true ∧
      waitForBody m w h hist e =
        .stop (.success (screenWithCursor raw e.cursor w h))) ∨
    (∃ raw, e.capture = some raw ∧
      (m (screenWithCursor raw e.cursor w h)).1 = false ∧
      e.afterDeadline = true ∧
      waitForBody m w h hist e =
        .stop (.timedOut (m (screenWithCursor raw e.cursor w h)).2
          (appendRecentScreens hist (some (screenWithCursor raw e.cursor w h))
            failureCaptureHistory))) ∨
    (∃ raw, e.capture = some raw ∧
      (m (screenWithCursor raw e.cursor w h)).1 = false ∧
      e.afterDeadline = false ∧
      waitForBody m w h hist e =
        .next (appendRecentScreens hist (some (screenWithCursor raw e.cursor w h))
            failureCaptureHistory)
          (m (screenWithCursor raw e.cursor w h)).2) := by
  cases hc : e.capture with
  | none =>
    left
    exact ⟨rfl, by simp [waitForBody, hc]⟩
  | some raw =>
    cases hm : (m (screenWithCursor raw e.cursor w h)).1 with
    | true =>
      right; left
      exact ⟨raw, rfl, hm, by simp [waitForBody, hc, hm]⟩
    | false =>
      cases hd : e.afterDeadline with
      | true =>
        right; right; left
        exact ⟨raw, rfl, hm, rfl, by simp [waitForBody, hc, hm, hd]⟩
      | false =>
        right; right; right
        exact ⟨raw, rfl, hm, rfl, by simp [waitForBody, hc, hm, hd]⟩

theorem waitForLoop_histOf_le (m : Matcher) (w h : Int) (trace : List EnvStep) :
    ∀ (hist : List Screen) (lastDesc : String) (hi : List Screen),
      hist.length ≤ failureCaptureHistory →
      histOf (waitForLoop m w h hist lastDesc trace) = some hi →
      hi.length ≤ failureCaptureHistory := by
  induction trace with
  | nil =>
    intro hist ld hi hb heq
    simp only [waitForLoop, histOf, Option.some.injEq] at heq
    exact heq ▸ hb
  | cons e rest ih =>
    intro hist ld hi hb heq
    simp only [waitForLoop] at heq
    cases hds : deadState e.paneState with
    | some status =>
      simp only [hds, histOf, Option.some.injEq] at heq
      exact heq ▸ appendRecentScreens_length_le hist _ _ hb
    | none =>
      simp only [hds] at heq
      rcases waitForBody_cases m w h hist e with
        ⟨hc, hwb⟩ | ⟨raw, hc, hm, hwb⟩ | ⟨raw, hc, hm, hd, hwb⟩ |
        ⟨raw, hc, hm, hd, hwb⟩
      · rw [hwb] at heq
        simp [histOf] at heq
      · rw [hwb] at heq
        simp [histOf] at heq
      · rw [hwb] at heq
        simp only [histOf, Option.some.injEq] at heq
        exact heq ▸ appendRecentScreens_length_le hist _ _ hb
      · rw [hwb] at heq
        exact ih _ _ hi (appendRecentScreens_length_le hist _ _ hb) heq

/-! ### Claim theorems -/

/-- C10: for every raw capture string (empty included), the constructed
Screen has a non-empty line list, so `Screen.Line 0` never fails; its raw
content equals its lines joined by a single newline; and the raw content is
the input with CRLF normalized to LF and exactly one trailing newline
removed before splitting. -/
theorem newScreen_lines_nonempty (raw : List Char) (w h : Int) :
    (newScreen raw w h).lines ≠ [] ∧
    joinNl (newScreen raw w h).lines = (newScreen raw w h).raw ∧
    (newScreen raw w h).raw = trimOneTrailingNewline (normCrlf raw) ∧
    ((newScreen raw w h).Line 0).isSome = true := by
  refine ⟨splitNl_ne_nil _, joinNl_splitNl _, rfl, ?_⟩
  show (if (0 : Int) < 0 then none
    else (newScreen raw w h).lines.get? (0 : Int).toNat).isSome = true
  rw [if_neg (by omega)]
  cases h2 : (newScreen raw w h).lines with
  | nil => exact absurd h2 (splitNl_ne_nil _)
  | cons l ls => simp

/-- C9: `All` of zero matchers is vacuously true on every Screen, `Any` of
zero matchers is vacuously false, and `Not (Not m)` agrees with `m` on the
matched boolean. -/
theorem combinator_identities (scr : Screen) (m : Matcher) :
    (All [] scr).1 = true ∧ (Any [] scr).1 = false ∧
    (Not (Not m) scr).1 = (m scr).1 := by
  refine ⟨rfl, rfl, ?_⟩
  show (!(!(m scr).1)) = (m scr).1
  exact Bool.not_not _

/-- C7: for an out-of-range index (negative or at/after the line count) the
`Line` and `LineContains` matchers return false with their usual
description, while the direct accessor `Screen.Line` fails (the Go method
panics, embedded as `none`). -/
theorem line_matchers_out_of_range (scr : Screen) (n : Int)
    (text substr : List Char)
    (hout : n < 0 ∨ (scr.lines.length : Int) ≤ n) :
    Line n text scr =
      (false, "line " ++ toString n ++ " to equal " ++ quoteChars text) ∧
    LineContains n substr scr =
      (false, "line " ++ toString n ++ " to contain " ++ quoteChars substr) ∧
    scr.Line n = none := by
  refine ⟨?_, ?_, ?_⟩
  · show (if n < 0 ∨ (scr.lines.length : Int) ≤ n then _ else _) = _
    rw [if_pos hout]
  · show (if n < 0 ∨ (scr.lines.length : Int) ≤ n then _ else _) = _
    rw [if_pos hout]
  · show (if n < 0 then none else scr.lines.get? n.toNat) = none
    rcases hout with hneg | hge
    · rw [if_pos hneg]
    · rw [if_neg (by omega)]
      rw [List.get?_eq_none]
      omega

/-- C7 witness: a two-line screen probed at index 5. -/
theorem line_matchers_out_of_range_witness :
    Line 5 ['a'] (newScreen ['a', '\n', 'b'] 80 24) =
      (false, "line " ++ toString (5 : Int) ++ " to equal " ++ quoteChars ['a']) ∧
    LineContains 5 ['b'] (newScreen ['a', '\n', 'b'] 80 24) =
      (false, "line " ++ toString (5 : Int) ++ " to contain " ++ quoteChars ['b']) ∧
    (newScreen ['a', '\n', 'b'] 80 24).Line 5 = none :=
  line_matchers_out_of_range _ 5 ['a'] ['b'] (Or.inr (by decide))

/-- C3 (code-bug evidence): on a Screen whose cursor query failed (both
cursor fields hold the sentinel `-1`), `Cursor 0 0` does not report
"unavailable" but prints the raw sentinel coordinates, and `Cursor (-1) (-1)`
matches even though the cursor is unknown — contradicting the README's
documented "cursor position unavailable" behavior. -/
theorem cursor_matcher_sentinel_behavior :
    c3Screen.cursorRow = -1 ∧ c3Screen.cursorCol = -1 ∧
    Cursor 0 0 c3Screen =
      (false, "cursor at row=0, col=0 (actual: row=-1, col=-1)") ∧
    (Cursor (-1) (-1) c3Screen).1 = true := by
  refine ⟨rfl, rfl, ?_, rfl⟩
  decide

/-- C8: snapshot normalization is idempotent — applying
`normalizeForSnapshot` to its own output returns the identical string. -/
theorem normalizeForSnapshot_idem (s : List Char) :
    normalizeForSnapshot (normalizeForSnapshot s) = normalizeForSnapshot s := by
  have hmem : ∀ l ∈ dropTrailingBlanks ((splitNl s).map trimTrailingSpaces),
      nl ∉ l ∧ trimTrailingSpaces l = l := by
    intro l hl
    have hl2 : l ∈ (splitNl s).map trimTrailingSpaces :=
      mem_dropTrailingBlanks _ _ hl
    rcases List.mem_map.mp hl2 with ⟨l0, hl0, rfl⟩
    constructor
    · intro hc
      exact mem_splitNl_not_nl s l0 hl0 (mem_trimTrailingSpaces _ _ hc)
    · exact trimTrailingSpaces_idem l0
  rcases hys : dropTrailingBlanks ((splitNl s).map trimTrailingSpaces)
    with _ | ⟨y, ytl⟩
  · have h1 : normalizeForSnapshot s = [nl] := by
      unfold normalizeForSnapshot
      rw [hys]
      rfl
    rw [h1]
    decide
  · rw [hys] at hmem
    have h1 : normalizeForSnapshot s = joinNl (y :: ytl) ++ [nl] := by
      unfold normalizeForSnapshot
      rw [hys]
    rw [h1]
    show normalizeForSnapshot (joinNl (y :: ytl) ++ [nl]) = joinNl (y :: ytl) ++ [nl]
    unfold normalizeForSnapshot
    rw [splitNl_joinNl_concat _ (by simp) (fun l hl => (hmem l hl).1)]
    have hmap : ((y :: ytl) ++ [[]]).map trimTrailingSpaces = (y :: ytl) ++ [[]] := by
      apply map_self
      intro a ha
      rcases List.mem_append.mp ha with ha2 | ha2
      · exact (hmem a ha2).2
      · have : a = [] := by simpa using ha2
        rw [this]
        rfl
    rw [hmap, dropTrailingBlanks_concat_blank]
    have hfix : dropTrailingBlanks (y :: ytl) = y :: ytl := by
      conv_lhs => rw [← hys]
      rw [dropTrailingBlanks_idem, hys]
    rw [hfix]

/-- C1: when the liveness query reports the pane dead, the loop iteration
always produces `processDied` with the reported exit status: the matcher is
run on the best-effort final screen only for its description (its boolean is
never consulted), and a failed best-effort capture (`none`) is tolerated,
leaving the history and description unchanged. -/
theorem waitFor_death_always_processDied (m : Matcher) (w h : Int)
    (hist : List Screen) (lastDesc : String) (e : EnvStep)
    (rest : List EnvStep) (st : PaneState)
    (hp : e.paneState = some st) (hd : st.dead = true) :
    waitForLoop m w h hist lastDesc (e :: rest) =
      .processDied st.exitStatus
        (match captureScreenRaw e w h with
         | some scr => (m scr).2
         | none => lastDesc)
        (appendRecentScreens hist (captureScreenRaw e w h)
          failureCaptureHistory) := by
  simp only [waitForLoop]
  rw [hp]
  simp [deadState, hd]

/-- C1 witness: a dead pane with exit status 7 and a matcher that evaluates
to true on the final screen still yields `processDied`, with the matcher's
description. -/
theorem waitFor_death_always_processDied_witness :
    waitForLoop mAlwaysTrue 80 24 [] "matcher condition" [c1Step] =
      .processDied 7 "always" [newScreen ['h', 'i'] 80 24] := by
  have happ := waitFor_death_always_processDied mAlwaysTrue 80 24 []
    "matcher condition" c1Step [] { dead := true, exitStatus := 7 } rfl rfl
  exact happ.trans (by decide)

/-- C2 counterexample: at the first iteration the liveness query errors, yet
the wait does not fail; it continues polling and succeeds on the second
iteration. -/
theorem waitFor_liveness_error_counterexample :
    c2Step1.paneState = none ∧
    waitForInternal defaultTimeout defaultPollInterval 0 0 mTextOk 80 24
      [c2Step1, c2Step2] = .success (newScreen ['o', 'k'] 80 24) := by
  constructor
  · rfl
  · decide

/-- C2 (amended): in `waitForInternal` a liveness-query error is ignored —
the death check is skipped and the iteration proceeds exactly like an
alive-pane iteration (capturing, evaluating, and continuing to poll when
unmatched and before the deadline); only `WaitExit` treats a liveness-query
error as an immediate hard failure. -/
theorem waitFor_liveness_error_skips_death_check :
    (∀ (m : Matcher) (w h : Int) (hist : List Screen) (lastDesc : String)
       (e : EnvStep) (rest : List EnvStep) (raw : List Char),
       e.paneState = none → e.capture = some raw →
       (m (screenWithCursor raw e.cursor w h)).1 = false →
       e.afterDeadline = false →
       waitForLoop m w h hist lastDesc (e :: rest) =
         waitForLoop m w h
           (appendRecentScreens hist
             (some (screenWithCursor raw e.cursor w h)) failureCaptureHistory)
           (m (screenWithCursor raw e.cursor w h)).2 rest) ∧
    (∀ (w h : Int) (hist : List Screen) (e : EnvStep) (rest : List EnvStep),
       e.paneState = none →
       waitExitLoop w h hist (e :: rest) = .livenessFailed) := by
  constructor
  · intro m w h hist lastDesc e rest raw hp hc hm hd
    simp only [waitForLoop]
    rw [hp]
    simp only [deadState]
    rcases waitForBody_cases m w h hist e with
      ⟨hc2, hwb⟩ | ⟨raw2, hc2, hm2, hwb⟩ | ⟨raw2, hc2, hm2, hd2, hwb⟩ |
      ⟨raw2, hc2, hm2, hd2, hwb⟩
    · rw [hc] at hc2
      cases hc2
    · rw [hc] at hc2
      injection hc2 with hr
      subst hr
      rw [hm] at hm2
      cases hm2
    · rw [hd] at hd2
      cases hd2
    · rw [hc] at hc2
      injection hc2 with hr
      subst hr
      rw [hwb]
  · intro w h hist e rest hp
    simp only [waitExitLoop]
    rw [hp]

/-- C2 amended-claim witness: the first step of the counterexample trace
continues the loop, and the same step makes `WaitExit` fail at once. -/
theorem waitFor_liveness_error_skips_death_check_witness :
    waitForLoop mNever 80 24 [] "matcher condition" [c2Step1] =
      waitForLoop mNever 80 24 [newScreen ['n', 'o'] 80 24] "never" [] ∧
    waitExitLoop 80 24 [] [c2Step1] = .livenessFailed := by
  constructor
  · have happ := waitFor_liveness_error_skips_death_check.1 mNever 80 24 []
      "matcher condition" c2Step1 [] ['n', 'o'] rfl rfl rfl rfl
    exact happ.trans (by decide)
  · exact waitFor_liveness_error_skips_death_check.2 80 24 [] c2Step1 [] rfl

/-- C4: the wait engine always performs at least one full
capture-and-evaluate cycle before reporting `timedOut` — any `timedOut`
result carries a non-empty history whose newest entry is a captured screen
on which the matcher just evaluated to false and whose description is the
reported one; and because the deadline is checked only after the evaluation,
a matching first capture yields `success` even on an iteration whose
deadline has already passed. -/
theorem waitFor_evaluates_before_timeout :
    (∀ (m : Matcher) (w h : Int) (hist : List Screen) (lastDesc d : String)
       (trace : List EnvStep) (hi : List Screen),
       waitForLoop m w h hist lastDesc trace = .timedOut d hi →
       ∃ scr, hi.getLast? = some scr ∧ (m scr).1 = false ∧ d = (m scr).2) ∧
    (∀ (m : Matcher) (w h : Int) (hist : List Screen) (lastDesc : String)
       (e : EnvStep) (rest : List EnvStep) (raw : List Char),
       deadState e.paneState = none → e.capture = some raw →
       (m (screenWithCursor raw e.cursor w h)).1 = true →
       waitForLoop m w h hist lastDesc (e :: rest) =
         .success (screenWithCursor raw e.cursor w h)) := by
  constructor
  · intro m w h hist lastDesc d trace hi
    induction trace generalizing hist lastDesc with
    | nil =>
      intro heq
      simp [waitForLoop] at heq
    | cons e rest ih =>
      intro heq
      simp only [waitForLoop] at heq
      cases hds : deadState e.paneState with
      | some status =>
        simp only [hds] at heq
        simp at heq
      | none =>
        simp only [hds] at heq
        rcases waitForBody_cases m w h hist e with
          ⟨hc, hwb⟩ | ⟨raw, hc, hm, hwb⟩ | ⟨raw, hc, hm, hd, hwb⟩ |
          ⟨raw, hc, hm, hd, hwb⟩
        · rw [hwb] at heq
          simp at heq
        · rw [hwb] at heq
          simp at heq
        · rw [hwb] at heq
          simp only [WaitResult.timedOut.injEq] at heq
          obtain ⟨hdq, hhq⟩ := heq
          refine ⟨screenWithCursor raw e.cursor w h, ?_, hm, hdq.symm⟩
          rw [← hhq]
          exact appendRecentScreens_some_getLast hist _ _ (by decide)
        · rw [hwb] at heq
          exact ih _ _ heq
  · intro m w h hist lastDesc e rest raw hds hc hm
    simp only [waitForLoop]
    rw [hds]
    rcases waitForBody_cases m w h hist e with
      ⟨hc2, hwb⟩ | ⟨raw2, hc2, hm2, hwb⟩ | ⟨raw2, hc2, hm2, hd2, hwb⟩ |
      ⟨raw2, hc2, hm2, hd2, hwb⟩
    · rw [hc] at hc2
      cases hc2
    · rw [hc] at hc2
      injection hc2 with hr
      subst hr
      rw [hwb]
    · rw [hc] at hc2
      injection hc2 with hr
      subst hr
      rw [hm] at hm2
      cases hm2
    · rw [hc] at hc2
      injection hc2 with hr
      subst hr
      rw [hm] at hm2
      cases hm2

/-- C4 witness: a trace that times out after one evaluated capture, and a
first capture that matches on an already-expired deadline and still
succeeds. -/
theorem waitFor_evaluates_before_timeout_witness :
    (∃ scr, ([screenWithCursor ['x'] none 80 24].getLast? = some scr ∧
      (mNever scr).1 = false ∧ "never" = (mNever scr).2)) ∧
    waitForLoop mAlwaysTrue 80 24 [] "matcher condition" [c4StepMatch] =
      .success (screenWithCursor ['x'] (some (2, 3)) 80 24) := by
  constructor
  · exact waitFor_evaluates_before_timeout.1 mNever 80 24 [] "matcher condition"
      "never" [c4StepTimeout] [screenWithCursor ['x'] none 80 24] (by decide)
  · exact waitFor_evaluates_before_timeout.2 mAlwaysTrue 80 24 []
      "matcher condition" c4StepMatch [] ['x'] rfl rfl rfl

/-- C5: per-call wait configuration — a zero override selects the session
default, a positive timeout override replaces it, a positive poll-interval
override replaces it but is clamped up to `minPollInterval` (10ms) when
below it, and a negative override makes `waitForInternal` fail immediately
(invalid timeout checked first), consuming no polling steps for any trace. -/
theorem wait_config_resolution (dflt ov defT defP woT : Int) :
    resolveOverride dflt 0 = some dflt ∧
    (0 < ov → resolveOverride dflt ov = some ov) ∧
    resolvePoll dflt 0 = some dflt ∧
    (0 < ov → minPollInterval ≤ ov → resolvePoll dflt ov = some ov) ∧
    (0 < ov → ov < minPollInterval → resolvePoll dflt ov = some minPollInterval) ∧
    (ov < 0 → ∀ (woP : Int) (m : Matcher) (w h : Int) (trace : List EnvStep),
      waitForInternal defT defP ov woP m w h trace = .invalidTimeout) ∧
    (ov < 0 → 0 ≤ woT → ∀ (m : Matcher) (w h : Int) (trace : List EnvStep),
      waitForInternal defT defP woT ov m w h trace = .invalidPollInterval) := by
  refine ⟨?_, ?_, ?_, ?_, ?_, ?_, ?_⟩
  · simp [resolveOverride]
  · intro h0
    simp [resolveOverride, h0]
  · simp [resolvePoll]
  · intro h0 hge
    unfold resolvePoll
    rw [if_pos h0, if_neg (by omega)]
  · intro h0 hlt
    unfold resolvePoll
    rw [if_pos h0, if_pos hlt]
  · intro hneg woP m w h trace
    unfold waitForInternal resolveOverride
    rw [if_neg (by omega), if_pos hneg]
  · intro hneg hge m w h trace
    have hsome : ∃ t, resolveOverride defT woT = some t := by
      unfold resolveOverride
      by_cases h1 : 0 < woT
      · rw [if_pos h1]
        exact ⟨_, rfl⟩
      · rw [if_neg h1, if_neg (by omega)]
        exact ⟨_, rfl⟩
    obtain ⟨t, ht⟩ := hsome
    simp only [waitForInternal, ht]
    unfold resolvePoll
    rw [if_neg (by omega), if_pos hneg]

/-- C5 witness: concrete timeouts and intervals (nanoseconds) exercising
every branch of the resolution rules. -/
theorem wait_config_resolution_witness :
    resolveOverride 5000000000 0 = some 5000000000 ∧
    resolveOverride 5000000000 250 = some 250 ∧
    resolvePoll 50000000 0 = some 50000000 ∧
    resolvePoll 50000000 20000000 = some 20000000 ∧
    resolvePoll 50000000 5 = some minPollInterval ∧
    waitForInternal 1 1 (-1) 0 mNever 80 24 [] = .invalidTimeout ∧
    waitForInternal 1 1 0 (-2) mNever 80 24 [] = .invalidPollInterval := by
  refine ⟨?_, ?_, ?_, ?_, ?_, ?_, ?_⟩
  · exact (wait_config_resolution 5000000000 0 0 0 0).1
  · exact (wait_config_resolution 5000000000 250 0 0 0).2.1 (by norm_num)
  · exact (wait_config_resolution 50000000 0 0 0 0).2.2.1
  · exact (wait_config_resolution 50000000 20000000 0 0 0).2.2.2.1
      (by norm_num) (by norm_num [minPollInterval])
  · exact (wait_config_resolution 50000000 5 0 0 0).2.2.2.2.1
      (by norm_num) (by norm_num [minPollInterval])
  · exact (wait_config_resolution 0 (-1) 1 1 0).2.2.2.2.2.1
      (by norm_num) 0 mNever 80 24 []
  · exact (wait_config_resolution 0 (-2) 1 1 0).2.2.2.2.2.2
      (by norm_num) (by norm_num) mNever 80 24 []

/-- C6: the bounded capture history — appending keeps exactly the newest
`max` screens of the appended sequence (FIFO eviction of the oldest, order
preserved oldest first), appending never grows a within-bound history past
the bound, and every failure history the wait loop reports stays within
`failureCaptureHistory = 3`. -/
theorem capture_history_bounded_fifo :
    (∀ (hist : List Screen) (scr : Screen) (max : Nat),
      appendRecentScreens hist (some scr) max =
        (hist ++ [scr]).drop (hist.length + 1 - max)) ∧
    (∀ (hist : List Screen) (scr : Option Screen) (max : Nat),
      hist.length ≤ max → (appendRecentScreens hist scr max).length ≤ max) ∧
    (∀ (m : Matcher) (w h : Int) (trace : List EnvStep) (hist : List Screen)
      (lastDesc : String) (hi : List Screen),
      hist.length ≤ failureCaptureHistory →
      histOf (waitForLoop m w h hist lastDesc trace) = some hi →
      hi.length ≤ failureCaptureHistory) :=
  ⟨appendRecentScreens_some_eq_drop, appendRecentScreens_length_le,
    fun m w h trace hist ld hi hb heq =>
      waitForLoop_histOf_le m w h trace hist ld hi hb heq⟩

/-- C6 witness: a full history evicts exactly its oldest entry, appending
stays within the bound, and a concrete timed-out wait reports a history of
one screen. -/
theorem capture_history_bounded_fifo_witness :
    appendRecentScreens
        [newScreen ['a'] 80 24, newScreen ['b'] 80 24, newScreen ['c'] 80 24]
        (some (newScreen ['d'] 80 24)) 3 =
      ([newScreen ['a'] 80 24, newScreen ['b'] 80 24, newScreen ['c'] 80 24] ++
        [newScreen ['d'] 80 24]).drop 1 ∧
    (appendRecentScreens [] (some (newScreen ['a'] 80 24))
      failureCaptureHistory).length ≤ failureCaptureHistory ∧
    [screenWithCursor ['x'] none 80 24].length ≤ failureCaptureHistory := by
  refine ⟨?_, ?_, ?_⟩
  · exact capture_history_bounded_fifo.1
      [newScreen ['a'] 80 24, newScreen ['b'] 80 24, newScreen ['c'] 80 24]
      (newScreen ['d'] 80 24) 3
  · exact capture_history_bounded_fifo.2.1 [] _ _ (by decide)
  · exact capture_history_bounded_fifo.2.2 mNever 80 24 [c4StepTimeout] []
      "matcher condition" _ (by decide) (by decide)

end Crawler
